import Mathlib

/-
Verification development for the hfspace Go client library.

The repository contains two components: an HTTP client for Hugging Face
Space "call" endpoints (`hfs.go` and its latest revision, which adds
SSE `event:`/`complete` handling to `Do` and the `FileData.FromUrl` /
`FromBytes` / `FromBase64` constructors) and an anonymous uploader for
the qu.ax file host (`quax.go`).

The definitions below are a shallow embedding of that code.  Network
responses are passed in as explicit parameters (the code's behaviour is a
pure function of them); Go strings are modelled as Lean `String`
(a list of characters), byte buffers as `List Nat`, and the local
filesystem as a function from path to optional file size.
-/

/-! ## Models of the Go `strings` helpers used by the client -/

/-- Model of the prefix test underlying Go's `strings.HasPrefix`:
`leads pre s` is true when the character list `pre` is an initial
segment of `s`. -/
def leads : List Char → List Char → Bool
  | [], _ => true
  | _ :: _, [] => false
  | p :: ps, c :: cs => p == c && leads ps cs

/-- Model of Go's `strings.HasPrefix s pre`. -/
def goStartsWith (s pre : String) : Bool :=
  leads pre.data s.data

/-- Model of the substring test underlying Go's `strings.Contains`:
`hasSub sub s` is true when `sub` occurs contiguously in `s`. -/
def hasSub (sub : List Char) : List Char → Bool
  | [] => leads sub []
  | c :: cs => leads sub (c :: cs) || hasSub sub cs

/-- Model of Go's `strings.Contains s sub`. -/
def goContains (s sub : String) : Bool :=
  hasSub sub.data s.data

/-- Go's `unicode.IsSpace` restricted to the Latin-1 range (space, tab,
newline, vertical tab, form feed, carriage return, NEL, NBSP); the
higher code-point space classes never occur in this protocol's payloads. -/
def goIsSpace (c : Char) : Bool :=
  c == ' ' || c == '\t' || c == '\n' || c == '\r' ||
  c.toNat == 11 || c.toNat == 12 || c.toNat == 133 || c.toNat == 160

/-- Model of Go's `strings.TrimSpace`: drop whitespace from both ends. -/
def goTrimSpace (s : String) : String :=
  ⟨((s.data.dropWhile goIsSpace).reverse.dropWhile goIsSpace).reverse⟩

/-- Model of Go's `strings.TrimLeft s "/"`: drop ALL leading slashes. -/
def trimLeftSlash (s : String) : String :=
  ⟨s.data.dropWhile (fun c => c == '/')⟩

/-- Drop the first `n` characters of a string; models Go's byte-slicing
`line[n:]` on lines whose first `n` bytes are ASCII. -/
def strDrop (s : String) (n : Nat) : String :=
  ⟨s.data.drop n⟩

/-- Model of Go's `strings.Split s "\n"`: split at every newline. -/
def splitNl (s : String) : List String :=
  go s.data []
where
  /-- Accumulates the current (reversed) piece while scanning. -/
  go : List Char → List Char → List String
    | [], acc => [⟨acc.reverse⟩]
    | c :: rest, acc =>
      if c == '\n' then ⟨acc.reverse⟩ :: go rest [] else go rest (c :: acc)

/-! ## The SSE result scan of `Do` (latest revision)

The latest revision of `Do` reads the follow-up GET body, splits it on
newlines and runs the loop at lines 122-145: an `event:` line containing
`error` aborts; an `event:` line containing `complete` sets a flag; a
`data:` line records its trimmed payload and, if the flag is set, breaks;
after the loop an empty recorded payload is an error.  (The repository
also contains an earlier revision of `Do` that stops at the first `data:`
line; the spec codifies the later variant, which is the one embedded here.) -/

/-- Errors of `rawUpload`/`fileUpload`; one constructor per return site. -/
inductive QuaxErr where
  /-- `quax.Client.Do` returned an error. -/
  | transport
  /-- `io.ReadAll` returned an error. -/
  | readBody
  /-- "quax upload response unmarshal". -/
  | unmarshal
  /-- "quax upload failed": success flag false or empty files array. -/
  | uploadFailed
  /-- "file too large": size above the 200 MiB cap. -/
  | tooLarge
  /-- `os.Open` returned an error. -/
  | openErr
deriving DecidableEq, Repr

/-- Errors produced by the embedded `Do` and `FileData` constructors;
each constructor corresponds to one `fmt.Errorf` site. -/
inductive HfsErr where
  /-- "hfs event ID decode": the POST response failed to JSON-decode. -/
  | eventIdDecode
  /-- "hfs event error": an `event:` line containing `error` was scanned. -/
  | eventError
  /-- "hfs no data in resp": the recorded data line is empty. -/
  | noData
  /-- "hfs decode final resp": unmarshalling the data line failed. -/
  | finalDecode
  /-- "hfs empty data": `FromBytes` was given an empty buffer. -/
  | emptyData
  /-- "hfs base64 decode": `FromBase64` was given malformed base64. -/
  | b64Malformed
  /-- "hfs quax upload": the anonymous upload failed (wrapped cause). -/
  | quaxWrap (cause : QuaxErr)
deriving DecidableEq, Repr

/-- The check after the scan loop: `if len(data) == 0` fail, else succeed. -/
def finalizeData (dat : String) : Except HfsErr String :=
  if dat.data.length == 0 then .error .noData else .ok dat

/-- The scan loop of `Do` over the split lines, carrying the
`EventCompleted` flag and the recorded `data` payload.  An `event:` line
cannot also be a `data:` line (the prefixes differ), so the Go code's two
sequential `if` statements are rendered as `else if`. -/
def scanGo : List String → Bool → String → Except HfsErr String
  | [], _, dat => finalizeData dat
  | line :: rest, completed, dat =>
    if goStartsWith line "event:" then
      if goContains line "error" then .error .eventError
      else scanGo rest (completed || goContains line "complete") dat
    else if goStartsWith line "data:" then
      let d := goTrimSpace (strDrop line 5)
      if completed then finalizeData d
      else scanGo rest completed d
    else scanGo rest completed dat

/-- The same loop, but reporting the carried state when it falls off the
end of the line list instead of finalizing; used to reason about how
`scanGo` treats a decomposition of its input. -/
def scanPart : List String → Bool → String → (Bool × String) ⊕ Except HfsErr String
  | [], completed, dat => .inl (completed, dat)
  | line :: rest, completed, dat =>
    if goStartsWith line "event:" then
      if goContains line "error" then .inr (.error .eventError)
      else scanPart rest (completed || goContains line "complete") dat
    else if goStartsWith line "data:" then
      let d := goTrimSpace (strDrop line 5)
      if completed then .inr (finalizeData d)
      else scanPart rest completed d
    else scanPart rest completed dat

/-- The payload of the last `data:` line of the list (starting from a
carried payload `dat`); reference function for the event-free scans. -/
def lastData : List String → String → String
  | [], dat => dat
  | line :: rest, dat =>
    lastData rest (if goStartsWith line "data:" then goTrimSpace (strDrop line 5) else dat)

/-- The full GET-body handling of `Do`: split on newlines and scan. -/
def scanBody (body : String) : Except HfsErr String :=
  scanGo (splitNl body) false ""

/-! ## The two-phase `Do` -/

/-- Outcome of `json.NewDecoder(resp.Body).Decode` into the anonymous
struct with the single string field `event_id`: `malformed` when decoding
fails (invalid JSON, or a JSON value/field of the wrong shape), otherwise
`obj id` where `id` is the decoded field — the Go zero value `""` when
the `event_id` key is absent from a valid JSON object. -/
inductive PostDecode where
  | malformed
  | obj (eventId : String)
deriving DecidableEq, Repr

/-- The endpoint URL built at line 66:
`fmt.Sprintf("%s/%s", h.BaseURL, strings.TrimLeft(endpoint, "/"))`. -/
def fullUrl (baseUrl endpoint : String) : String :=
  baseUrl ++ "/" ++ trimLeftSlash endpoint

/-- The follow-up URL built at line 101:
`fmt.Sprintf("%s/%s", fullURL, eventID)`. -/
def streamUrl (fullU eventId : String) : String :=
  fullU ++ "/" ++ eventId

/-- The retrieval half of `Do`: scan the GET body, then unmarshal the
recorded data line into `[]O` (the unmarshaller is a parameter since `O`
is generic; its error message is discarded into `finalDecode`). -/
def hfsGetPhase {O : Type} (body : String)
    (unm : String → Except String (List O)) : Except HfsErr (List O) :=
  match scanBody body with
  | .error e => .error e
  | .ok dat =>
    match unm dat with
    | .error _ => .error .finalDecode
    | .ok res => .ok res

/-- The value-level behaviour of `Do` on the transport-success path, as a
function of the decoded POST response and the GET body: a malformed POST
body fails at the decode step; otherwise `Do` proceeds to the follow-up
GET (whatever the decoded event id, including `""`) and handles its body. -/
def hfsDo {O : Type} (post : PostDecode) (getBody : String)
    (unm : String → Except String (List O)) : Except HfsErr (List O) :=
  match post with
  | .malformed => .error .eventIdDecode
  | .obj _ =>
    match scanBody getBody with
    | .error e => .error e
    | .ok dat =>
      match unm dat with
      | .error _ => .error .finalDecode
      | .ok res => .ok res

/-! ## The Quax anonymous uploader (`quax.go`)

The uploader's observable result is a pure function of the HTTP response
to the upload POST (the multipart body is produced by a goroutine whose
errors are silently dropped and cannot influence the returned value), so
the response is passed in as an explicit parameter.  The local filesystem
is modelled as a map from path to optional file size; `os.Stat` errors
are collapsed to "not exists" (the only kind the code distinguishes). -/

/-- One entry of the `files` array of the upload response (`File`). -/
structure QuaxFile where
  url : String
deriving DecidableEq, Repr

/-- The JSON shape of the upload response (`QuaxResponse`). -/
structure QuaxResponse where
  success : Bool
  files : List QuaxFile
deriving DecidableEq, Repr

/-- Outcome of `Client.Do` + `io.ReadAll` + `json.Unmarshal` on the
upload POST: transport failure, body-read failure, unmarshal failure, or
a decoded `QuaxResponse`. -/
inductive QuaxNetOutcome where
  | transportErr
  | readErr
  | badJson
  | json (qr : QuaxResponse)
deriving DecidableEq, Repr


/-- The response-handling tail shared verbatim by `rawUpload` (lines
99-119) and `fileUpload` (lines 155-175): propagate transport/read
failures, unmarshal, require the success flag and a non-empty `files`
array, and return the first entry's URL. -/
def quaxRespHandle (resp : QuaxNetOutcome) : Except QuaxErr String :=
  match resp with
  | .transportErr => .error .transport
  | .readErr => .error .readBody
  | .badJson => .error .unmarshal
  | .json qr =>
    if !qr.success || qr.files.isEmpty then .error .uploadFailed
    else .ok (qr.files.headD ⟨""⟩).url

/-- `rawUpload(b, name)`: builds the multipart body from the in-memory
buffer (no validation, no effect on the result) and handles the response.
The unused parameters mirror the Go signature and request construction. -/
def rawUpload (userhash : String) (b : List Nat) (name : String)
    (resp : QuaxNetOutcome) : Except QuaxErr String :=
  quaxRespHandle resp

/-- `FileSize(path)`: size from `os.Stat`, `0` when stat fails. -/
def FileSize (fs : String → Option Nat) (path : String) : Nat :=
  match fs path with
  | none => 0
  | some sz => sz

/-- `FileExists(name)`: false exactly when `os.Stat` fails (modelled:
stat fails iff the path is absent from the filesystem map). -/
def FileExists (fs : String → Option Nat) (name : String) : Bool :=
  (fs name).isSome

/-- `fileUpload(path)`: open the file (fails when absent), reject sizes
above `209715200` bytes, then stream the multipart body and handle the
response exactly as `rawUpload` does. -/
def fileUpload (userhash : String) (fs : String → Option Nat) (path : String)
    (resp : QuaxNetOutcome) : Except QuaxErr String :=
  match fs path with
  | none => .error .openErr
  | some _ =>
    if 209715200 < FileSize fs path then .error .tooLarge
    else quaxRespHandle resp

/-- Model of `url.Parse` followed by `URL.String()` for the strings this
client feeds it (upload-host URLs or `""`): parsing fails only on ASCII
control characters and re-serialization is the identity. -/
def goUrlParse (s : String) : Option String :=
  if s.data.any (fun c => c.toNat < 32) then none else some s

/-- A dynamically-typed argument of `Upload(v ...any)`: the code
distinguishes `string`, `[]byte`, and everything else. -/
inductive GoVal where
  | str (s : String)
  | bytes (b : List Nat)
  | other
deriving DecidableEq, Repr

/-- Errors of `Upload`; one constructor per `return "", err` site. -/
inductive UploadErr where
  /-- "must specify file path or byte slice". -/
  | mustSpecify
  /-- "path invalid". -/
  | pathInvalid
  /-- "must specify file name". -/
  | mustName
  /-- "unhandled". -/
  | unhandled
  /-- `url.Parse` failed inside the `parse` helper. -/
  | urlParse
  /-- An error propagated from `rawUpload`. -/
  | quax (e : QuaxErr)
deriving DecidableEq, Repr

/-- A call to `Upload` either returns a URL, returns an error, or panics
(the unchecked type assertion `v[1].(string)`). -/
inductive UploadOut where
  | ok (u : String)
  | err (e : UploadErr)
  | panics
deriving DecidableEq, Repr

/-- `Quax.Upload(v ...any)`.  Note the `parse` helper in the string case:
it is applied to both return values of `fileUpload` but binds the error
to `_`, so a `fileUpload` failure reaches `url.Parse` as the string `""`
and the error itself is discarded. -/
def Upload (fs : String → Option Nat) (resp : QuaxNetOutcome)
    (userhash : String) (v : List GoVal) : UploadOut :=
  match v with
  | [] => .err .mustSpecify
  | .str path :: _ =>
    if FileExists fs path then
      -- parse(quax.fileUpload(path)): the error component is ignored;
      -- on failure fileUpload's string component is "".
      let s := match fileUpload userhash fs path resp with
        | .ok u => u
        | .error _ => ""
      match goUrlParse s with
      | none => .err .urlParse
      | some u => .ok u
    else .err .pathInvalid
  | [.bytes b, .str name] =>
    match rawUpload userhash b name resp with
    | .ok u => .ok u
    | .error e => .err (.quax e)
  | [.bytes _, _] => .panics
  | .bytes _ :: _ => .err .mustName
  | .other :: _ => .err .unhandled

/-! ## `FileData` and its constructors (latest revision) -/

/-- The Gradio-compatible `FileData` struct of the latest revision
(`mime_type` is a nullable pointer there; `meta` a string-keyed map whose
only use is the fixed `_type` discriminator entry). -/
structure FileData where
  path : String
  url : String
  size : Int
  origName : String
  mimeType : Option String
  isStream : Bool
  meta : List (String × String)
deriving DecidableEq, Repr

/-- `NewFileData(name)`: zero-valued fields except the name, the nil
mime type, and the discriminator meta entry. -/
def NewFileData (name : String) : FileData :=
  { path := ""
    url := ""
    size := 0
    origName := name
    mimeType := none
    isStream := false
    meta := [("_type", "gradio.FileData")] }

/-- `FromUrl(url)`: set `URL`, `Path` and `Size` on the receiver and
return it; no failure path and no network access (the definition takes no
network-response parameter because the code performs no request).  The
first component is the receiver's state after the call. -/
def FromUrl (fd : FileData) (u : String) : FileData × Except HfsErr FileData :=
  let fd' := { fd with url := u, path := u, size := 0 }
  (fd', .ok fd')

/-- `FromBytes(data)`: reject an empty buffer, upload the bytes through
`NewQuax(nil).rawUpload(data, fd.OrigName)` (userhash is the zero value
`""`), and only on upload success mutate the receiver.  The first
component is the receiver's state after the call; the wrapped cause
models the `%w` chain. -/
def FromBytes (fd : FileData) (data : List Nat) (resp : QuaxNetOutcome) :
    FileData × Except HfsErr FileData :=
  if data.isEmpty then (fd, .error .emptyData)
  else
    match rawUpload "" data fd.origName resp with
    | .error e => (fd, .error (.quaxWrap e))
    | .ok u =>
      let fd' := { fd with url := u, path := u, size := (data.length : Int) }
      (fd', .ok fd')

/-! Model of Go's `base64.StdEncoding.DecodeString`: newlines are
skipped, the remaining length must be a multiple of four, `=` padding is
accepted only at the very end, and each 4-character group decodes to
three, two or one bytes. -/

/-- The value of one standard-alphabet base64 character. -/
def b64val (c : Char) : Option Nat :=
  if 'A' ≤ c && c ≤ 'Z' then some (c.toNat - 65)
  else if 'a' ≤ c && c ≤ 'z' then some (c.toNat - 97 + 26)
  else if '0' ≤ c && c ≤ '9' then some (c.toNat - 48 + 52)
  else if c == '+' then some 62
  else if c == '/' then some 63
  else none

/-- Decode whole 4-character groups, allowing padding in the last one. -/
def b64groups : List Char → Option (List Nat)
  | [] => some []
  | a :: b :: c :: d :: rest =>
    match b64val a, b64val b with
    | some va, some vb =>
      if c == '=' then
        if d == '=' && rest.isEmpty then some [va * 4 + vb / 16]
        else none
      else
        match b64val c with
        | some vc =>
          if d == '=' then
            if rest.isEmpty then some [va * 4 + vb / 16, vb % 16 * 16 + vc / 4]
            else none
          else
            match b64val d with
            | some vd =>
              (b64groups rest).map
                (fun tl => (va * 4 + vb / 16) :: (vb % 16 * 16 + vc / 4) :: (vc % 4 * 64 + vd) :: tl)
            | none => none
        | none => none
    | _, _ => none
  | _ => none

/-- `base64.StdEncoding.DecodeString`. -/
def b64decode (s : String) : Option (List Nat) :=
  b64groups (s.data.filter (fun c => !(c == '\r' || c == '\n')))

/-- `FromBase64(b64)`: decode the standard base64 text and delegate to
`FromBytes`; a decode failure leaves the receiver untouched. -/
def FromBase64 (fd : FileData) (b64 : String) (resp : QuaxNetOutcome) :
    FileData × Except HfsErr FileData :=
  match b64decode b64 with
  | none => (fd, .error .b64Malformed)
  | some bytes => FromBytes fd bytes resp

/-! ## Helper lemmas about the SSE scan -/

/-- An `event:`-prefixed line is never `data:`-prefixed. -/
theorem event_line_not_data (l : String) (h : goStartsWith l "event:" = true) :
    goStartsWith l "data:" = false := by
  obtain ⟨ld⟩ := l
  cases ld with
  | nil => exact absurd h (by decide)
  | cons c cs =>
    simp only [goStartsWith] at h ⊢
    simp only [leads, Bool.and_eq_true, beq_iff_eq] at h ⊢
    obtain ⟨h1, -⟩ := h
    subst h1
    rfl

/-- A `data:`-prefixed line is never `event:`-prefixed. -/
theorem data_line_not_event (l : String) (h : goStartsWith l "data:" = true) :
    goStartsWith l "event:" = false := by
  cases he : goStartsWith l "event:" with
  | false => rfl
  | true => exact absurd h (by simp [event_line_not_data l he])

/-- Decomposition of the scan loop: scanning `xs ++ ys` either terminates
inside `xs` (with the result `scanPart` reports) or continues into `ys`
from the state `scanPart` carries out of `xs`. -/
theorem scanGo_append (xs ys : List String) (c : Bool) (d : String) :
    scanGo (xs ++ ys) c d =
      match scanPart xs c d with
      | .inl s => scanGo ys s.1 s.2
      | .inr r => r := by
  induction xs generalizing c d with
  | nil => simp [scanPart]
  | cons l rest ih =>
    by_cases h1 : goStartsWith l "event:"
    · by_cases h2 : goContains l "error" <;>
        simp [scanGo, scanPart, h1, h2, ih]
    · by_cases h3 : goStartsWith l "data:"
      · by_cases h4 : c <;> simp [scanGo, scanPart, h1, h3, h4, ih]
      · simp [scanGo, scanPart, h1, h3, ih]

/-- On a line list whose `event:` lines carry neither `error` nor
`complete`, the scan runs to the end and finalizes the most recent
`data:` payload (starting from the carried payload `dat`). -/
theorem scanGo_eventFree (lines : List String) (dat : String)
    (h : ∀ l ∈ lines, goStartsWith l "event:" = true →
        goContains l "error" = false ∧ goContains l "complete" = false) :
    scanGo lines false dat = finalizeData (lastData lines dat) := by
  induction lines generalizing dat with
  | nil => rfl
  | cons l rest ih =>
    have hrest : ∀ x ∈ rest, goStartsWith x "event:" = true →
        goContains x "error" = false ∧ goContains x "complete" = false :=
      fun x hx => h x (List.mem_cons_of_mem _ hx)
    by_cases h1 : goStartsWith l "event:"
    · obtain ⟨he, hc⟩ := h l (List.mem_cons_self l rest) h1
      simp [scanGo, lastData, h1, he, hc, event_line_not_data l h1, ih _ hrest]
    · by_cases h3 : goStartsWith l "data:" <;>
        simp [scanGo, lastData, h1, h3, ih _ hrest]

/-- On a line list containing an error event but no complete event, the
scan never breaks early and always reaches an error event, whatever
payload it carries. -/
theorem scanGo_error_noComplete (lines : List String) (dat : String)
    (hex : ∃ l ∈ lines, goStartsWith l "event:" = true ∧ goContains l "error" = true)
    (hnc : ∀ l ∈ lines, goStartsWith l "event:" = true → goContains l "complete" = false) :
    scanGo lines false dat = .error .eventError := by
  induction lines generalizing dat with
  | nil => simp at hex
  | cons l rest ih =>
    have hncr : ∀ x ∈ rest, goStartsWith x "event:" = true →
        goContains x "complete" = false :=
      fun x hx => hnc x (List.mem_cons_of_mem _ hx)
    by_cases h1 : goStartsWith l "event:"
    · by_cases h2 : goContains l "error"
      · simp [scanGo, h1, h2]
      · have hex' : ∃ x ∈ rest, goStartsWith x "event:" = true ∧ goContains x "error" = true := by
          rcases hex with ⟨x, hx, hxe, hxerr⟩
          rcases List.mem_cons.1 hx with rfl | hx'
          · exact absurd hxerr (by simp [h2])
          · exact ⟨x, hx', hxe, hxerr⟩
        have hc := hnc l (List.mem_cons_self l rest) h1
        simp [scanGo, h1, h2, hc]
        exact ih _ hex' hncr
    · have hex' : ∃ x ∈ rest, goStartsWith x "event:" = true ∧ goContains x "error" = true := by
        rcases hex with ⟨x, hx, hxe, hxerr⟩
        rcases List.mem_cons.1 hx with rfl | hx'
        · exact absurd hxe (by simp [h1])
        · exact ⟨x, hx', hxe, hxerr⟩
      by_cases h3 : goStartsWith l "data:" <;>
        simp [scanGo, h1, h3] <;> exact ih _ hex' hncr

/-! ## Claims -/

/-- C1: For every GET response body parsed by `Do` as an SSE stream, the
retained data line is the most recent `data:` line seen: if an `event:`
line containing `complete` has been observed, scanning stops as soon as
the associated `data:` line is captured (the result does not depend on
the remaining lines); otherwise scanning continues to the end of the
stream and the last `data:` line found is used.  In particular, for the
body with lines `event: generating`, `data: [1]`, `event: complete`,
`data: [2]`, `Do` returns the decoding of `[2]`. -/
theorem c1_sse_retained_data :
    (∀ (O : Type) (unm : String → Except String (List O)),
      hfsDo (.obj "ev1") "event: generating\ndata: [1]\nevent: complete\ndata: [2]" unm =
        match unm "[2]" with
        | .error _ => .error .finalDecode
        | .ok res => .ok res)
    ∧ (∀ (lines : List String) (dat : String),
        (∀ l ∈ lines, goStartsWith l "event:" = true →
          goContains l "error" = false ∧ goContains l "complete" = false) →
        scanGo lines false dat = finalizeData (lastData lines dat))
    ∧ (∀ (pre : List String) (line : String) (rest : List String) (d0 : String),
        scanPart pre false "" = .inl (true, d0) →
        goStartsWith line "data:" = true →
        scanGo (pre ++ line :: rest) false "" =
          finalizeData (goTrimSpace (strDrop line 5))) := by
  refine ⟨?_, scanGo_eventFree, ?_⟩
  · intro O unm
    show (match scanBody "event: generating\ndata: [1]\nevent: complete\ndata: [2]" with
      | .error e => (.error e : Except HfsErr (List O))
      | .ok dat => match unm dat with
        | .error _ => .error .finalDecode
        | .ok res => .ok res) = _
    rw [show scanBody "event: generating\ndata: [1]\nevent: complete\ndata: [2]" =
      .ok "[2]" from rfl]
  · intro pre line rest d0 hpart hline
    rw [scanGo_append, hpart]
    simp [scanGo, data_line_not_event line hline, hline]

/-- Witness for C1: the example body yields the decoding of `[2]`; a
complete-free stream yields its last data line; once a `complete` event
was seen, the next data line wins and later lines are ignored. -/
theorem c1_sse_retained_data_witness :
    hfsDo (.obj "ev1") "event: generating\ndata: [1]\nevent: complete\ndata: [2]"
      (fun s => .ok ([s] : List String)) = .ok ["[2]"]
    ∧ scanGo ["event: heartbeat", "data: [5]", "data: [6]"] false "" = .ok "[6]"
    ∧ scanGo (["event: generating", "data: [1]", "event: complete"] ++
        "data: [2]" :: ["data: [3]"]) false "" = .ok "[2]" := by
  refine ⟨?_, ?_, ?_⟩
  · exact (c1_sse_retained_data.1 String (fun s => .ok [s])).trans rfl
  · exact (c1_sse_retained_data.2.1 ["event: heartbeat", "data: [5]", "data: [6]"] ""
      (by decide)).trans rfl
  · exact (c1_sse_retained_data.2.2 ["event: generating", "data: [1]", "event: complete"]
      "data: [2]" ["data: [3]"] "[1]" rfl rfl).trans rfl

/-- C2 counterexample: the body `event: complete`, `data: [1]`,
`event: error` contains a line beginning `event:` whose content contains
`error`, yet `Do` succeeds with the decoding of `[1]` — the scan breaks
at the data line paired with `complete` and never reaches the error
event. -/
theorem c2_error_event_counterexample :
    hfsDo (.obj "ev1") "event: complete\ndata: [1]\nevent: error"
      (fun s => .ok ([s] : List String)) = .ok ["[1]"]
    ∧ (∃ l ∈ splitNl "event: complete\ndata: [1]\nevent: error",
        goStartsWith l "event:" = true ∧ goContains l "error" = true) := by
  exact ⟨rfl, by decide⟩

/-- C2 (amended): an `event:` line whose content contains `error` makes
`Do` fail with the job-failed ProtocolError whenever the scan reaches it,
i.e. whenever scanning has not already stopped at a data line paired with
an earlier `complete` event; in particular, if the body has no `complete`
event at all, the call fails regardless of any `data:` lines present. -/
theorem c2_error_event_amended :
    (∀ (pre : List String) (line : String) (rest : List String) (c : Bool) (d : String),
      scanPart pre false "" = .inl (c, d) →
      goStartsWith line "event:" = true → goContains line "error" = true →
      scanGo (pre ++ line :: rest) false "" = .error .eventError)
    ∧ (∀ lines : List String,
        (∃ l ∈ lines, goStartsWith l "event:" = true ∧ goContains l "error" = true) →
        (∀ l ∈ lines, goStartsWith l "event:" = true → goContains l "complete" = false) →
        scanGo lines false "" = .error .eventError) := by
  constructor
  · intro pre line rest c d hpart hev herr
    rw [scanGo_append, hpart]
    simp [scanGo, hev, herr]
  · exact fun lines hex hnc => scanGo_error_noComplete lines "" hex hnc

/-- Witness for C2 (amended): an error event reached after a data line
fails the scan, and an error event with no complete event anywhere fails
the scan despite surrounding data lines. -/
theorem c2_error_event_witness :
    scanGo (["data: [3]"] ++ "event: error" :: ["data: [4]"]) false "" = .error .eventError
    ∧ scanGo ["data: [1]", "event: internal error", "data: [2]"] false "" =
        .error .eventError := by
  constructor
  · exact c2_error_event_amended.1 ["data: [3]"] "event: error" ["data: [4]"]
      false "[3]" rfl rfl rfl
  · exact c2_error_event_amended.2 ["data: [1]", "event: internal error", "data: [2]"]
      (by decide) (by decide)

/-- C3 counterexample: a submission POST body that is valid JSON but
lacks `event_id` (e.g. the empty JSON object) decodes — per Go's
`encoding/json` semantics — to the zero-valued event id `""` rather than
failing, and `Do` proceeds to the follow-up GET: its result is computed
from the GET body (here the decoding of `[7]`), and the follow-up URL is
the endpoint URL with a bare trailing slash. -/
theorem c3_missing_eventid_counterexample :
    hfsDo (.obj "") "data: [7]" (fun s => .ok ([s] : List String)) = .ok ["[7]"]
    ∧ streamUrl (fullUrl "https://name.hf.space/gradio_api/call" "run") "" =
        "https://name.hf.space/gradio_api/call/run/" := by
  exact ⟨rfl, rfl⟩

/-- C3 (amended): only a POST body that fails JSON decoding makes `Do`
fail at the event-id step; a valid JSON body lacking `event_id` decodes
to the empty event id, and `Do` proceeds to the follow-up GET (against
the endpoint URL with a trailing slash appended) and handles its body as
usual. -/
theorem c3_missing_eventid_amended :
    ∀ (body : String) (O : Type) (unm : String → Except String (List O)),
      hfsDo .malformed body unm = .error .eventIdDecode
      ∧ hfsDo (.obj "") body unm = hfsGetPhase body unm
      ∧ (∀ u : String, streamUrl u "" = u ++ "/") := by
  intro body O unm
  refine ⟨rfl, rfl, fun u => ?_⟩
  apply String.ext
  simp [streamUrl, String.data_append]

/-- C4 counterexample: an endpoint path with two leading slashes loses
both of them (Go's `strings.TrimLeft` trims the whole leading run), so
the joined URL has a single slash at the boundary — not the
all-but-one-slash the claim predicts. -/
theorem c4_url_join_counterexample :
    fullUrl "https://name.hf.space/gradio_api/call" "//foo" =
      "https://name.hf.space/gradio_api/call/foo"
    ∧ "https://name.hf.space/gradio_api/call/foo" ≠
      "https://name.hf.space/gradio_api/call//foo" := by
  exact ⟨rfl, by decide⟩

/-- C4 (amended): `Do` builds the request URL as the base, one slash, and
the endpoint with its ENTIRE run of leading slashes trimmed (any extra
leading slash is absorbed, not kept); internal slashes are not collapsed;
in particular `/foo` joined to a base ending in `/call` yields
`.../call/foo`. -/
theorem c4_url_join_amended :
    ∀ base ep : String,
      fullUrl base ("/" ++ ep) = fullUrl base ep
      ∧ (goStartsWith ep "/" = false → fullUrl base ep = base ++ "/" ++ ep)
      ∧ fullUrl base "/foo" = base ++ "/foo"
      ∧ fullUrl base "a//b" = base ++ "/a//b" := by
  intro base ep
  refine ⟨?_, ?_, ?_, ?_⟩
  · rfl
  · intro h
    obtain ⟨ld⟩ := ep
    cases ld with
    | nil => rfl
    | cons c cs =>
      simp only [goStartsWith, leads, Bool.and_eq_true, beq_iff_eq] at h
      show base ++ "/" ++ trimLeftSlash ⟨c :: cs⟩ = base ++ "/" ++ ⟨c :: cs⟩
      congr 1
      apply String.ext
      simp only [trimLeftSlash, List.dropWhile_cons]
      have hc : (c == '/') = false := by
        cases hcc : c == '/' with
        | false => rfl
        | true => exact absurd (by simpa using (beq_iff_eq.mp hcc).symm) (by simpa using h)
      simp [hc]
  · apply String.ext
    simp [fullUrl, String.data_append]
    rfl
  · apply String.ext
    simp [fullUrl, String.data_append]
    rfl

/-- Witness for C4 (amended): concrete instances of the leading-slash
absorption and of the one-slash join for a slash-free path. -/
theorem c4_url_join_witness :
    fullUrl "https://b.hf.space/gradio_api/call" ("/" ++ "x") =
      fullUrl "https://b.hf.space/gradio_api/call" "x"
    ∧ fullUrl "https://b.hf.space/gradio_api/call" "x//y" =
      "https://b.hf.space/gradio_api/call" ++ "/" ++ "x//y" := by
  exact ⟨(c4_url_join_amended "https://b.hf.space/gradio_api/call" "x").1,
    (c4_url_join_amended "https://b.hf.space/gradio_api/call" "x//y").2.1 rfl⟩

/-- C5 counterexample: if the upload host answers with the success flag
set and a first file descriptor whose `url` field is the empty string,
`FromBytes` of a non-empty buffer returns a FileReference whose location
is empty with no error — the code never checks the returned URL. -/
theorem c5_frombytes_counterexample :
    (FromBytes (NewFileData "img.png") [1]
        (.json { success := true, files := [{ url := "" }] })).2 =
      .ok { NewFileData "img.png" with path := "", url := "", size := 1 }
    ∧ ({ NewFileData "img.png" with path := "", url := "", size := 1 } : FileData).url
        = "" := by
  exact ⟨rfl, rfl⟩

/-- C5 (amended): `FromBytes(b, f)` either fails with an error or returns
a FileReference whose size equals `len(b)` and whose location equals the
URL sent back by the uploader — non-empty whenever the upload response's
first file URL is non-empty (the code itself never validates it); for
empty `b` it always fails with the empty-data ValidationError, regardless
of filename and independently of any upload response (no upload is
attempted). -/
theorem c5_frombytes_amended :
    ∀ (fd : FileData) (data : List Nat) (resp : QuaxNetOutcome),
      (data = [] → FromBytes fd data resp = (fd, .error .emptyData))
      ∧ (∀ fd2, (FromBytes fd data resp).2 = .ok fd2 →
          fd2.size = (data.length : Int) ∧ fd2.url = fd2.path
            ∧ (FromBytes fd data resp).1 = fd2)
      ∧ (∀ (qr : QuaxResponse) (f : QuaxFile) (tl : List QuaxFile),
          data ≠ [] → qr.success = true → qr.files = f :: tl → f.url ≠ "" →
          ∃ fd2, (FromBytes fd data (.json qr)).2 = .ok fd2 ∧ fd2.url = f.url
            ∧ fd2.url ≠ "" ∧ fd2.size = (data.length : Int)) := by
  intro fd data resp
  refine ⟨?_, ?_, ?_⟩
  · rintro rfl
    rfl
  · intro fd2 h
    by_cases hd : data.isEmpty
    · simp [FromBytes, hd] at h
    · cases hr : rawUpload "" data fd.origName resp with
      | error q => simp [FromBytes, hd, hr] at h
      | ok u =>
        simp only [FromBytes, hd, hr, if_neg, Bool.false_eq_true, not_false_eq_true,
          if_false, Except.ok.injEq] at h
        subst h
        exact ⟨rfl, rfl, by simp [FromBytes, hd, hr]⟩
  · intro qr f tl hne hsucc hfiles hurl
    have hd : data.isEmpty = false := by
      cases data with
      | nil => exact absurd rfl hne
      | cons a as => rfl
    have hr : rawUpload "" data fd.origName (.json qr) = .ok f.url := by
      simp [rawUpload, quaxRespHandle, hsucc, hfiles]
    refine ⟨{ fd with url := f.url, path := f.url, size := (data.length : Int) },
      ?_, rfl, hurl, rfl⟩
    simp [FromBytes, hd, hr]

/-- Witness for C5 (amended): the empty buffer fails without consulting
any response, and a non-empty buffer with a well-formed upload response
yields a reference carrying that URL and the buffer length. -/
theorem c5_frombytes_witness :
    FromBytes (NewFileData "n") [] .transportErr = (NewFileData "n", .error .emptyData)
    ∧ (∃ fd2, (FromBytes (NewFileData "n") [2, 3]
          (.json { success := true, files := [{ url := "https://qu.ax/u.bin" }] })).2 =
            .ok fd2
        ∧ fd2.url = "https://qu.ax/u.bin" ∧ fd2.url ≠ ""
        ∧ fd2.size = ((2 : Nat) : Int)) := by
  refine ⟨(c5_frombytes_amended (NewFileData "n") [] .transportErr).1 rfl, ?_⟩
  exact (c5_frombytes_amended (NewFileData "n") [2, 3]
      (.json { success := true, files := [{ url := "https://qu.ax/u.bin" }] })).2.2
    { success := true, files := [{ url := "https://qu.ax/u.bin" }] }
    { url := "https://qu.ax/u.bin" } [] (by decide) rfl rfl (by decide)

/-- C6: for every non-empty string `u`, `FromUrl(u)` succeeds, performs
no network request (the definition consumes no network outcome), and
returns the receiver with location and path both `u` verbatim, size `0`,
and the original name untouched. -/
theorem c6_fromurl :
    ∀ (fd : FileData) (u : String), u ≠ "" →
      (FromUrl fd u).2 = .ok (FromUrl fd u).1
      ∧ (FromUrl fd u).1.url = u ∧ (FromUrl fd u).1.path = u
      ∧ (FromUrl fd u).1.size = 0
      ∧ (FromUrl fd u).1.origName = fd.origName := by
  intro fd u _
  exact ⟨rfl, rfl, rfl, rfl, rfl⟩

/-- Witness for C6 at a concrete non-empty URL. -/
theorem c6_fromurl_witness :
    (FromUrl (NewFileData "f.png") "https://e.com/f.png").2 =
      .ok (FromUrl (NewFileData "f.png") "https://e.com/f.png").1
    ∧ (FromUrl (NewFileData "f.png") "https://e.com/f.png").1.url =
      "https://e.com/f.png" := by
  have h := c6_fromurl (NewFileData "f.png") "https://e.com/f.png" (by decide)
  exact ⟨h.1, h.2.1⟩

/-- C7: evaluation of the code at the claim's inputs.  For an existing
file above the 200 MiB cap, `fileUpload` does construct the file-too-large
error before any network interaction (the result does not depend on the
response) — but `Upload` DISCARDS it: its `parse` helper ignores the
error component, `url.Parse("")` succeeds, and `Upload` returns the empty
URL with no error instead of the ValidationError.  For a non-existent
path, `Upload` does fail with the path-invalid error, with no network
interaction. -/
theorem c7_upload_toolarge_swallowed :
    ∀ (fs : String → Option Nat) (resp : QuaxNetOutcome) (userhash path : String),
      ((∃ sz, fs path = some sz ∧ 209715200 < sz) →
        fileUpload userhash fs path resp = .error .tooLarge
        ∧ Upload fs resp userhash [.str path] = .ok "")
      ∧ (fs path = none → Upload fs resp userhash [.str path] = .err .pathInvalid) := by
  intro fs resp uh path
  constructor
  · rintro ⟨sz, hsz, hgt⟩
    have hfu : fileUpload uh fs path resp = .error .tooLarge := by
      simp [fileUpload, FileSize, hsz, hgt]
    refine ⟨hfu, ?_⟩
    simp [Upload, FileExists, hsz, hfu, goUrlParse]
  · intro h
    simp [Upload, FileExists, h]

/-- Witness for C7: a 209715201-byte file produces the too-large error
inside `fileUpload`, yet `Upload` returns the empty URL without error;
a missing path yields the path-invalid error. -/
theorem c7_upload_toolarge_witness :
    fileUpload "" (fun p => if p = "big.bin" then some 209715201 else none)
      "big.bin" .transportErr = .error .tooLarge
    ∧ Upload (fun p => if p = "big.bin" then some 209715201 else none)
        .transportErr "" [.str "big.bin"] = .ok ""
    ∧ Upload (fun p => if p = "big.bin" then some 209715201 else none)
        .transportErr "" [.str "nope"] = .err .pathInvalid := by
  have h1 := (c7_upload_toolarge_swallowed
    (fun p => if p = "big.bin" then some 209715201 else none) .transportErr ""
    "big.bin").1 ⟨209715201, rfl, by norm_num⟩
  have h2 := (c7_upload_toolarge_swallowed
    (fun p => if p = "big.bin" then some 209715201 else none) .transportErr ""
    "nope").2 rfl
  exact ⟨h1.1, h1.2, h2⟩

/-- C8: on a decoded JSON upload response, both `rawUpload` and
`fileUpload` fail with the upload-failed ProtocolError when the success
flag is false or the files array is empty, and otherwise return the URL
of the first descriptor (`fileUpload` handles the response exactly as
`rawUpload` does once the file passed the existence and size checks). -/
theorem c8_upload_response_parse :
    ∀ (userhash name : String) (b : List Nat) (qr : QuaxResponse),
      ((qr.success = false ∨ qr.files = []) →
        rawUpload userhash b name (.json qr) = .error .uploadFailed)
      ∧ (∀ (f : QuaxFile) (tl : List QuaxFile), qr.success = true → qr.files = f :: tl →
          rawUpload userhash b name (.json qr) = .ok f.url)
      ∧ (∀ (fs : String → Option Nat) (path : String) (sz : Nat),
          fs path = some sz → sz ≤ 209715200 →
          fileUpload userhash fs path (.json qr) = rawUpload userhash b name (.json qr)) := by
  intro uh name b qr
  refine ⟨?_, ?_, ?_⟩
  · rintro (h | h) <;> simp [rawUpload, quaxRespHandle, h]
  · intro f tl hs hf
    simp [rawUpload, quaxRespHandle, hs, hf]
  · intro fs path sz hfs hle
    have hn : ¬ 209715200 < FileSize fs path := by
      simp [FileSize, hfs]
      omega
    simp [fileUpload, rawUpload, hfs, hn]

/-- Witness for C8: failure flag, empty array, and success cases on
concrete responses, plus a small existing file taking the same path. -/
theorem c8_upload_response_parse_witness :
    rawUpload "" [1] "f.bin"
      (.json { success := false, files := [{ url := "https://qu.ax/a" }] }) =
      .error .uploadFailed
    ∧ rawUpload "" [1] "f.bin" (.json { success := true, files := [] }) =
      .error .uploadFailed
    ∧ rawUpload "" [1] "f.bin"
        (.json { success := true, files := [{ url := "https://qu.ax/a" }] }) =
        .ok "https://qu.ax/a"
    ∧ fileUpload "" (fun _ => some 5) "p.bin"
        (.json { success := true, files := [{ url := "https://qu.ax/a" }] }) =
        rawUpload "" [1] "f.bin"
          (.json { success := true, files := [{ url := "https://qu.ax/a" }] }) := by
  refine ⟨(c8_upload_response_parse "" "f.bin" [1] _).1 (Or.inl rfl),
    (c8_upload_response_parse "" "f.bin" [1] _).1 (Or.inr rfl),
    (c8_upload_response_parse "" "f.bin" [1] _).2.1 { url := "https://qu.ax/a" } [] rfl rfl,
    (c8_upload_response_parse "" "f.bin" [1] _).2.2 (fun _ => some 5) "p.bin" 5 rfl
      (by norm_num)⟩

/-- C9: whenever `FromBytes` or `FromBase64` returns an error (empty
input, malformed base64, or upload failure), the receiver's fields are
exactly as before the call — the mutation happens only after a
successful upload. -/
theorem c9_receiver_unchanged_on_error :
    ∀ (fd : FileData) (data : List Nat) (b64 : String) (resp : QuaxNetOutcome)
      (e e2 : HfsErr),
      ((FromBytes fd data resp).2 = .error e → (FromBytes fd data resp).1 = fd)
      ∧ ((FromBase64 fd b64 resp).2 = .error e2 → (FromBase64 fd b64 resp).1 = fd) := by
  intro fd data b64 resp e e2
  constructor
  · intro h
    by_cases hd : data.isEmpty
    · simp [FromBytes, hd]
    · cases hr : rawUpload "" data fd.origName resp with
      | error q => simp [FromBytes, hd, hr]
      | ok u => simp [FromBytes, hd, hr] at h
  · intro h
    cases hb : b64decode b64 with
    | none => simp [FromBase64, hb]
    | some bytes =>
      simp only [FromBase64, hb] at h ⊢
      by_cases hd : bytes.isEmpty
      · simp [FromBytes, hd]
      · cases hr : rawUpload "" bytes fd.origName resp with
        | error q => simp [FromBytes, hd, hr]
        | ok u => simp [FromBytes, hd, hr] at h

/-- Witness for C9: empty bytes, malformed base64, and a failed upload
after a good base64 decode all leave the receiver untouched. -/
theorem c9_receiver_unchanged_witness :
    (FromBytes (NewFileData "a") [] .transportErr).1 = NewFileData "a"
    ∧ (FromBase64 (NewFileData "a") "%%" .transportErr).1 = NewFileData "a"
    ∧ (FromBase64 (NewFileData "a") "aGk=" .badJson).1 = NewFileData "a" := by
  refine ⟨(c9_receiver_unchanged_on_error (NewFileData "a") [] "" .transportErr
      .emptyData .emptyData).1 rfl,
    (c9_receiver_unchanged_on_error (NewFileData "a") [] "%%" .transportErr
      .emptyData .b64Malformed).2 rfl,
    (c9_receiver_unchanged_on_error (NewFileData "a") [] "aGk=" .badJson
      .emptyData (.quaxWrap .unmarshal)).2 rfl⟩

/-- C10: `Quax.Upload` panics on the unchecked type assertion when called
with a `[]byte` first argument and exactly one second argument that is
not a string; with zero arguments, with a lone `[]byte`, or with an
unsupported first argument it returns an error without panicking. -/
theorem c10_upload_panics :
    ∀ (fs : String → Option Nat) (resp : QuaxNetOutcome) (userhash : String),
      (∀ (b : List Nat) (x : GoVal), (∀ s, x ≠ GoVal.str s) →
        Upload fs resp userhash [.bytes b, x] = .panics)
      ∧ Upload fs resp userhash [] = .err .mustSpecify
      ∧ (∀ b : List Nat, Upload fs resp userhash [.bytes b] = .err .mustName)
      ∧ (∀ rest : List GoVal, Upload fs resp userhash (.other :: rest) =
          .err .unhandled) := by
  intro fs resp uh
  refine ⟨?_, rfl, fun b => rfl, fun rest => ?_⟩
  · intro b x hx
    cases x with
    | str s => exact absurd rfl (hx s)
    | bytes b2 => rfl
    | other => rfl
  · cases rest with
    | nil => rfl
    | cons y ys => rfl

/-- Witness for C10: the panic and each non-panicking error at concrete
arguments. -/
theorem c10_upload_panics_witness :
    Upload (fun _ => none) .transportErr "" [.bytes [1], .other] = .panics
    ∧ Upload (fun _ => none) .transportErr "" [] = .err .mustSpecify
    ∧ Upload (fun _ => none) .transportErr "" [.bytes [1]] = .err .mustName
    ∧ Upload (fun _ => none) .transportErr "" [.other] = .err .unhandled := by
  have h := c10_upload_panics (fun _ => none) .transportErr ""
  exact ⟨h.1 [1] .other (fun s hs => GoVal.noConfusion hs), h.2.1, h.2.2.1 [1],
    h.2.2.2 []⟩
